import Mathlib

/-!
# Admin IP authorization and registration

A shallow embedding of the IP authorization check of `index.js` (`ipToHex`,
`isAdminIP`) and of the owner-only registration command of
`commands/admin.js` (`execute`), followed by the properties proved about them.

JavaScript strings are embedded as Lean strings and processed as lists of
characters; the configuration file is embedded as the value obtained from
`JSON.parse`, and a call of `fs.writeFileSync` as the value handed to it.
-/

namespace AdminIp

/-! ## JavaScript primitives used by `ipToHex` -/

/-- `String.prototype.split(sep)` for a separator of one character: the pieces
between the occurrences of `sep`, always at least one piece. -/
def split (sep : Char) : List Char → List (List Char)
  | [] => [[]]
  | c :: cs =>
    if c = sep then [] :: split sep cs
    else
      match split sep cs with
      | [] => [[c]]
      | g :: gs => (c :: g) :: gs

/-- The characters removed by `parseInt` at the start of its input
(`WhiteSpace` and `LineTerminator` of ECMAScript). -/
def isWhiteSpace (c : Char) : Bool :=
  c.toNat ∈ [0x09, 0x0A, 0x0B, 0x0C, 0x0D, 0x20, 0xA0, 0x1680, 0x2028, 0x2029,
    0x202F, 0x205F, 0x3000, 0xFEFF] || (0x2000 ≤ c.toNat && c.toNat ≤ 0x200A)

/-- The value of a character as a digit, for radices up to 16. -/
def digitValue (c : Char) : Option Nat :=
  if '0' ≤ c ∧ c ≤ '9' then some (c.toNat - '0'.toNat)
  else if 'a' ≤ c ∧ c ≤ 'f' then some (c.toNat - 'a'.toNat + 10)
  else if 'A' ≤ c ∧ c ≤ 'F' then some (c.toNat - 'A'.toNat + 10)
  else none

/-- Whether `c` is a digit of radix `radix`. -/
def isRadixDigit (radix : Nat) (c : Char) : Bool :=
  match digitValue c with
  | some v => decide (v < radix)
  | none => false

/-- The integer written by a list of radix digits, most significant first. -/
def radixValue (radix : Nat) (z : List Char) : Nat :=
  z.foldl (fun acc c => acc * radix + (digitValue c).getD 0) 0

/-- A result of `parseInt`: `NaN`, or a sign and the mathematical integer that
was read (before its conversion to a double). -/
inductive JSNumber where
  | nan : JSNumber
  | int (negative : Bool) (magnitude : Nat) : JSNumber
  deriving DecidableEq, Repr

/-- `parseInt(s)` with no radix argument: skip leading white space, read an
optional sign, read an optional `0x` or `0X` (radix 16, else radix 10), then
the longest run of digits; `NaN` when that run is empty. -/
def parseInt (s : List Char) : JSNumber :=
  let s1 := s.dropWhile isWhiteSpace
  let negative := s1.head? == some '-'
  let s2 :=
    match s1 with
    | '+' :: r => r
    | '-' :: r => r
    | _ => s1
  let (radix, s3) :=
    match s2 with
    | '0' :: 'x' :: r => (16, r)
    | '0' :: 'X' :: r => (16, r)
    | _ => (10, s2)
  let z := s3.takeWhile (isRadixDigit radix)
  if z.isEmpty then JSNumber.nan else JSNumber.int negative (radixValue radix z)

/-- What ECMAScript leaves to the engine in `parseInt(part).toString(16)`: the
text printed for an integer of magnitude `2^53` or more, which is first
rounded to a double (`parseInt` may also drop decimal digits after the 20th)
and whose hexadecimal digits are then only approximated. -/
structure Engine where
  largeToString16 : Nat → List Char

/-- `Number.prototype.toString(16)` on a result of `parseInt`. -/
def toString16 (E : Engine) : JSNumber → List Char
  | JSNumber.nan => ['N', 'a', 'N']
  | JSNumber.int negative m =>
    if m = 0 then ['0']
    else
      (if negative then ['-'] else []) ++
        (if m < 2 ^ 53 then Nat.toDigits 16 m else E.largeToString16 m)

/-- `String.prototype.padStart(targetLength, fill)` for a filler of one
character. -/
def padStart (targetLength : Nat) (fill : Char) (s : List Char) : List Char :=
  List.replicate (targetLength - s.length) fill ++ s

/-- An engine that rounds to the nearest double, ties to even, and prints every
hexadecimal digit of the double (`Infinity` from `2^1024` on). -/
def Engine.roundToNearest : Engine where
  largeToString16 := fun n =>
    let e := Nat.log2 n - 52
    let q := n / 2 ^ e
    let r := n % 2 ^ e
    let q1 := if 2 ^ e < 2 * r ∨ (2 * r = 2 ^ e ∧ q % 2 = 1) then q + 1 else q
    if q1 * 2 ^ e < 2 ^ 1024 then Nat.toDigits 16 (q1 * 2 ^ e)
    else ['I', 'n', 'f', 'i', 'n', 'i', 't', 'y']

/-! ## `index.js` -/

/-- The function `ipToHex` of `index.js`. -/
def ipToHex (E : Engine) (ip : String) : String :=
  ⟨'0' :: 'x' ::
    ((split '.' ip.data).map fun part =>
      let hex := toString16 E (parseInt part)
      padStart 2 '0' hex).flatten⟩

/-- The part of `config.json` holding the bot credentials. -/
structure Telegram where
  botToken : String
  chatId : String
  deriving DecidableEq, Repr

/-- The document stored in `config.json`, as `JSON.parse` returns it:
`adminIps` is `none` when the field is absent, `rest` stands for every field
besides `telegram` and `adminIps`. -/
structure Config where
  telegram : Telegram
  adminIps : Option (List String)
  rest : List (String × String)
  deriving DecidableEq, Repr

/-- The function `isAdminIP` of `index.js`, on the configuration read from the
file at the time of the call. -/
def isAdminIP (E : Engine) (currentConfig : Config) (ip : String) : Bool :=
  let adminIps := currentConfig.adminIps.getD []
  let ipHex := ipToHex E ip
  adminIps.any fun adminIp => ipToHex E adminIp == ipHex

/-! ## Regular expressions -/

/-- The regular expression constructs used by `commands/admin.js`. -/
inductive Regex where
  /-- The class `\d`: one of the characters `0` to `9`. -/
  | digit : Regex
  /-- One given character. -/
  | char (c : Char) : Regex
  /-- The concatenation of `a` and `b`. -/
  | seq (a b : Regex) : Regex
  /-- The capture group `(a)`. -/
  | group (a : Regex) : Regex
  /-- The greedy quantifier `a{lo,hi}`. -/
  | rep (a : Regex) (lo hi : Nat) : Regex
  deriving Repr

/-- A backtracking run of a greedy quantifier whose body is run by `body`: the
inputs left after between `lo` and `hi` iterations, more iterations first. -/
def repeatRun (body : List Char → List (List Char)) :
    Nat → Nat → List Char → List (List Char)
  | lo, 0, s => if lo = 0 then [s] else []
  | lo, hi + 1, s =>
    (body s).flatMap (repeatRun body (lo - 1) hi) ++ (if lo = 0 then [s] else [])

/-- Backtracking matcher: every input that can be left after `re` has matched
at the start of `s`, in the order in which the alternatives are tried. The
bodies repeated in this program never match the empty string, so the
empty-iteration check of ECMAScript is not needed. -/
def Regex.run : Regex → List Char → List (List Char)
  | Regex.digit, [] => []
  | Regex.digit, c :: cs => if c.isDigit then [cs] else []
  | Regex.char _, [] => []
  | Regex.char d, c :: cs => if c = d then [cs] else []
  | Regex.seq a b, s => (Regex.run a s).flatMap (Regex.run b)
  | Regex.group a, s => Regex.run a s
  | Regex.rep a lo hi, s => repeatRun (Regex.run a) lo hi s

/-- `RegExp.prototype.test` for a pattern `/^re$/` without flags: some match
starts at index 0 and ends at the end of the input. -/
def Regex.test (re : Regex) (s : String) : Bool :=
  (re.run s.data).any List.isEmpty

/-! ## `commands/admin.js` -/

/-- The body of `/^(\d{1,3}\.){3}\d{1,3}$/` between its anchors. -/
def ipRegex : Regex :=
  Regex.seq
    (Regex.rep
      (Regex.group (Regex.seq (Regex.rep Regex.digit 1 3) (Regex.char '.'))) 3 3)
    (Regex.rep Regex.digit 1 3)

/-- The reply to a caller who is not the owner. -/
def unauthorizedMessage : String :=
  "❌ Unauthorized! Only the owner can add admin IPs."

/-- The reply to a call without argument. -/
def usageMessage : String :=
  "⚠️ Usage: /admin <IP_ADDRESS>\n\nExample: /admin 192.168.1.100"

/-- The reply to an argument that fails the regular expression. -/
def invalidFormatMessage : String :=
  "❌ Invalid IP address format!"

/-- The reply to an argument that is already stored. -/
def alreadyAuthorizedMessage : String :=
  "⚠️ This IP address is already authorized!"

/-- The reply `successMsg` after an address has been stored. -/
def successMessage (newIP : String) (total : Nat) : String :=
  "✅ Admin IP Added!\n\n" ++
    "🌐 IP: " ++ newIP ++ "\n" ++
    "📊 Total Admin IPs: " ++ toString total ++ "\n\n" ++
    "This IP can now:\n" ++
    "• Upload photos 📸\n" ++
    "• Upload music 🎵\n" ++
    "• Delete photos 🗑️"

/-- What a call of `execute` does: the chat and text given to
`bot.sendMessage`, and the configuration given to `fs.writeFileSync` when the
file is written. -/
structure Effect where
  chat : Int
  text : String
  written : Option Config
  deriving DecidableEq, Repr

/-- The function `execute` of the `admin` command, on the configuration read
from the file, the chat id of the message (an integer, printed in decimal by
`toString`) and the command arguments. -/
def execute (config : Config) (chatId : Int) (args : List String) : Effect :=
  if toString chatId ≠ config.telegram.chatId then
    ⟨chatId, unauthorizedMessage, none⟩
  else
    match args with
    | [] => ⟨chatId, usageMessage, none⟩
    | newIP :: _ =>
      if !ipRegex.test newIP then
        ⟨chatId, invalidFormatMessage, none⟩
      else
        let adminIps := config.adminIps.getD []
        if adminIps.contains newIP then
          ⟨chatId, alreadyAuthorizedMessage, none⟩
        else
          let adminIps := adminIps ++ [newIP]
          let config := { config with adminIps := some adminIps }
          ⟨chatId, successMessage newIP adminIps.length, some config⟩

/-! ## Notions used by the specification -/

/-- A non-empty group of the decimal digits `0` to `9`. -/
def IsDigitGroup (g : List Char) : Prop :=
  g ≠ [] ∧ ∀ c ∈ g, c.isDigit = true

/-- A group of one to three decimal digits. -/
def IsShortGroup (g : List Char) : Prop :=
  1 ≤ g.length ∧ g.length ≤ 3 ∧ ∀ c ∈ g, c.isDigit = true

/-- The integer denoted by a group of decimal digits. -/
def decimalValue (g : List Char) : Nat :=
  g.foldl (fun n c => 10 * n + (c.toNat - '0'.toNat)) 0

/-- The string `s` is four non-empty groups of decimal digits separated by
single dots, and the groups denote `a`, `b`, `c` and `d`. -/
def IsDottedQuad (s : String) (a b c d : Nat) : Prop :=
  ∃ g1 g2 g3 g4 : List Char,
    s.data = g1 ++ '.' :: (g2 ++ '.' :: (g3 ++ '.' :: g4)) ∧
    IsDigitGroup g1 ∧ IsDigitGroup g2 ∧ IsDigitGroup g3 ∧ IsDigitGroup g4 ∧
    decimalValue g1 = a ∧ decimalValue g2 = b ∧
    decimalValue g3 = c ∧ decimalValue g4 = d

/-- The string `s` is a dotted quad whose octets `a`, `b`, `c`, `d` all lie
in `[0,255]`. -/
def IsAddress (s : String) (a b c d : Nat) : Prop :=
  IsDottedQuad s a b c d ∧ a ≤ 255 ∧ b ≤ 255 ∧ c ≤ 255 ∧ d ≤ 255

/-- The string `s` is exactly four groups of one to three decimal digits
separated by single dots. -/
def IsDottedQuadShape (s : String) : Prop :=
  ∃ g1 g2 g3 g4 : List Char,
    s.data = g1 ++ '.' :: (g2 ++ '.' :: (g3 ++ '.' :: g4)) ∧
    IsShortGroup g1 ∧ IsShortGroup g2 ∧ IsShortGroup g3 ∧ IsShortGroup g4

/-- The lowercase hexadecimal digit of a value below 16. -/
def hexDigit (n : Nat) : Char :=
  ['0', '1', '2', '3', '4', '5', '6', '7', '8', '9', 'a', 'b', 'c', 'd', 'e', 'f'].getD n '0'

/-- The two-digit, zero-padded, lowercase hexadecimal rendering of an octet. -/
def hexPair (n : Nat) : List Char :=
  [hexDigit (n / 16), hexDigit (n % 16)]

/-- The lowercase hexadecimal rendering of `n` on exactly `width` digits. -/
def hexFixed : Nat → Nat → List Char
  | 0, _ => []
  | width + 1, n => hexFixed width (n / 16) ++ [hexDigit (n % 16)]

/-- The decimal rendering of an octet on three digits, leading zeros kept. -/
def threeDigits (n : Nat) : List Char :=
  [Char.ofNat ('0'.toNat + n / 100), Char.ofNat ('0'.toNat + n / 10 % 10),
    Char.ofNat ('0'.toNat + n % 10)]

/-- The dotted quad that writes the octets `a`, `b`, `c`, `d` on three digits
each. -/
def addressOf (a b c d : Nat) : String :=
  ⟨threeDigits a ++ '.' :: (threeDigits b ++ '.' :: (threeDigits c ++ '.' :: threeDigits d))⟩

instance (g : List Char) : Decidable (IsDigitGroup g) := by
  unfold IsDigitGroup
  infer_instance

instance (g : List Char) : Decidable (IsShortGroup g) := by
  unfold IsShortGroup
  infer_instance

/-- The strings matched by a regular expression, whatever the order in which
a matcher tries the alternatives. -/
def Regex.Matches : Regex → List Char → Prop
  | Regex.digit, p => ∃ c, p = [c] ∧ c.isDigit = true
  | Regex.char d, p => p = [d]
  | Regex.seq a b, p => ∃ p1 p2, p = p1 ++ p2 ∧ Regex.Matches a p1 ∧ Regex.Matches b p2
  | Regex.group a, p => Regex.Matches a p
  | Regex.rep a lo hi, p =>
    ∃ ps : List (List Char),
      p = ps.flatten ∧ lo ≤ ps.length ∧ ps.length ≤ hi ∧ ∀ q ∈ ps, Regex.Matches a q

/-! ## Characters and groups of digits -/

theorem isDigit_cases (c : Char) (h : c.isDigit = true) :
    c ∈ ['0', '1', '2', '3', '4', '5', '6', '7', '8', '9'] := by
  have h1 : 48 ≤ c.toNat ∧ c.toNat ≤ 57 := by
    simpa [Char.isDigit, Char.toNat, UInt32.le_def, Fin.le_def] using h
  have h2 : c = Char.ofNat c.toNat := (Char.ofNat_toNat c).symm
  obtain ⟨h3, h4⟩ := h1
  rw [h2]
  generalize c.toNat = n at h3 h4
  interval_cases n <;> decide

theorem isDigit_ne_dot (c : Char) (h : c.isDigit = true) : c ≠ '.' := by
  have h1 := isDigit_cases c h
  intro h2
  subst h2
  revert h1
  decide

theorem isDigit_not_whiteSpace (c : Char) (h : c.isDigit = true) :
    isWhiteSpace c = false := by
  have h1 := isDigit_cases c h
  simp only [List.mem_cons, List.mem_singleton, List.not_mem_nil, or_false] at h1
  rcases h1 with h1 | h1 | h1 | h1 | h1 | h1 | h1 | h1 | h1 | h1 <;> subst h1 <;> decide

theorem isDigit_radixDigit (c : Char) (h : c.isDigit = true) :
    isRadixDigit 10 c = true ∧ (digitValue c).getD 0 = c.toNat - '0'.toNat ∧
      c ≠ '+' ∧ c ≠ '-' ∧ c ≠ 'x' ∧ c ≠ 'X' := by
  have h1 := isDigit_cases c h
  simp only [List.mem_cons, List.mem_singleton, List.not_mem_nil, or_false] at h1
  rcases h1 with h1 | h1 | h1 | h1 | h1 | h1 | h1 | h1 | h1 | h1 <;> subst h1 <;> decide

theorem split_of_not_mem (sep : Char) (g : List Char) (h : sep ∉ g) :
    split sep g = [g] := by
  induction g with
  | nil => rfl
  | cons c g ih =>
    have hc : c ≠ sep := fun e => h (by simp [e])
    have hg : sep ∉ g := fun e => h (by simp [e])
    simp [split, hc, ih hg]

theorem split_append (sep : Char) (g rest : List Char) (h : sep ∉ g) :
    split sep (g ++ sep :: rest) = g :: split sep rest := by
  induction g with
  | nil => simp [split]
  | cons c g ih =>
    have hc : c ≠ sep := fun e => h (by simp [e])
    have hg : sep ∉ g := fun e => h (by simp [e])
    simp [split, hc, ih hg]

theorem dot_not_mem_of_digits (g : List Char) (h : ∀ c ∈ g, c.isDigit = true) :
    '.' ∉ g := fun hm => isDigit_ne_dot '.' (h '.' hm) rfl

theorem split_quad (g1 g2 g3 g4 : List Char)
    (h1 : ∀ c ∈ g1, c.isDigit = true) (h2 : ∀ c ∈ g2, c.isDigit = true)
    (h3 : ∀ c ∈ g3, c.isDigit = true) (h4 : ∀ c ∈ g4, c.isDigit = true) :
    split '.' (g1 ++ '.' :: (g2 ++ '.' :: (g3 ++ '.' :: g4))) = [g1, g2, g3, g4] := by
  rw [split_append _ _ _ (dot_not_mem_of_digits g1 h1),
    split_append _ _ _ (dot_not_mem_of_digits g2 h2),
    split_append _ _ _ (dot_not_mem_of_digits g3 h3),
    split_of_not_mem _ _ (dot_not_mem_of_digits g4 h4)]

theorem foldl_digits (g : List Char) (h : ∀ c ∈ g, c.isDigit = true) (n : Nat) :
    g.foldl (fun acc c => acc * 10 + (digitValue c).getD 0) n =
      g.foldl (fun n c => 10 * n + (c.toNat - '0'.toNat)) n := by
  induction g generalizing n with
  | nil => rfl
  | cons c g ih =>
    have hc := (isDigit_radixDigit c (h c (by simp))).2.1
    simp only [List.foldl_cons, hc]
    rw [Nat.mul_comm n 10]
    exact ih (fun d hd => h d (by simp [hd])) _

theorem radixValue_digits (g : List Char) (h : ∀ c ∈ g, c.isDigit = true) :
    radixValue 10 g = decimalValue g :=
  foldl_digits g h 0

theorem parseInt_digitGroup (g : List Char) (h : IsDigitGroup g) :
    parseInt g = JSNumber.int false (decimalValue g) := by
  obtain ⟨hne, hd⟩ := h
  cases g with
  | nil => exact absurd rfl hne
  | cons c g =>
    have hc := hd c (by simp)
    have hw := isDigit_not_whiteSpace c hc
    obtain ⟨hr, -, hplus, hminus, hx, hX⟩ := isDigit_radixDigit c hc
    have htake : List.takeWhile (isRadixDigit 10) (c :: g) = c :: g := by
      rw [List.takeWhile_eq_self_iff]
      intro d hd1
      exact (isDigit_radixDigit d (hd d hd1)).1
    have hs1 : List.dropWhile isWhiteSpace (c :: g) = c :: g := by
      simp [List.dropWhile, hw]
    have hs2 : (match c :: g with
        | '+' :: r => r
        | '-' :: r => r
        | _ => c :: g) = c :: g := by
      split
      · rename_i heq; exact absurd (List.cons.inj heq).1 hplus
      · rename_i heq; exact absurd (List.cons.inj heq).1 hminus
      · rfl
    have hs3 : (match c :: g with
        | '0' :: 'x' :: r => ((16 : Nat), r)
        | '0' :: 'X' :: r => (16, r)
        | _ => (10, c :: g)) = (10, c :: g) := by
      split
      · rename_i r heq
        have : 'x' ∈ c :: g := by rw [heq]; simp
        exact absurd rfl (isDigit_radixDigit 'x' (hd _ this)).2.2.2.2.1
      · rename_i r heq
        have : 'X' ∈ c :: g := by rw [heq]; simp
        exact absurd rfl (isDigit_radixDigit 'X' (hd _ this)).2.2.2.2.2
      · rfl
    unfold parseInt
    simp only [hs1, hs2, hs3, htake]
    have hneg : ((c :: g).head? == some '-') = false := by
      simp [hminus]
    simp [hminus, radixValue_digits (c :: g) hd]

/-! ## Hexadecimal rendering of octets -/

set_option maxRecDepth 100000 in
theorem toDigits_octet :
    ∀ m, m < 256 →
      padStart 2 '0' (if m = 0 then ['0'] else Nat.toDigits 16 m) = hexPair m := by
  decide

theorem padStart_toString16_octet (E : Engine) (m : Nat) (h : m ≤ 255) :
    padStart 2 '0' (toString16 E (JSNumber.int false m)) = hexPair m := by
  have h1 := toDigits_octet m (by omega)
  have h2 : m < 9007199254740992 := by omega
  simpa [toString16, h2] using h1

theorem hexDigit_injective :
    ∀ i, i < 16 → ∀ j, j < 16 → hexDigit i = hexDigit j → i = j := by
  decide

theorem hexPair_injective (a b : Nat) (ha : a ≤ 255) (hb : b ≤ 255)
    (h : hexPair a = hexPair b) : a = b := by
  simp only [hexPair, List.cons.injEq, and_true] at h
  have h1 := hexDigit_injective (a / 16) (by omega) (b / 16) (by omega) h.1
  have h2 := hexDigit_injective (a % 16) (Nat.mod_lt _ (by norm_num)) (b % 16)
    (Nat.mod_lt _ (by norm_num)) h.2
  omega

theorem hexFixed_quad (a b c d : Nat) (ha : a ≤ 255) (hb : b ≤ 255) (hc : c ≤ 255)
    (hd : d ≤ 255) :
    hexFixed 8 (a * 2 ^ 24 + b * 2 ^ 16 + c * 2 ^ 8 + d) =
      hexPair a ++ hexPair b ++ hexPair c ++ hexPair d := by
  have e1 : (a * 2 ^ 24 + b * 2 ^ 16 + c * 2 ^ 8 + d) % 16 = d % 16 := by omega
  have e2 : (a * 2 ^ 24 + b * 2 ^ 16 + c * 2 ^ 8 + d) / 16 % 16 = d / 16 := by omega
  have e3 : (a * 2 ^ 24 + b * 2 ^ 16 + c * 2 ^ 8 + d) / 16 / 16 % 16 = c % 16 := by
    omega
  have e4 : (a * 2 ^ 24 + b * 2 ^ 16 + c * 2 ^ 8 + d) / 16 / 16 / 16 % 16 = c / 16 := by
    omega
  have e5 : (a * 2 ^ 24 + b * 2 ^ 16 + c * 2 ^ 8 + d) / 16 / 16 / 16 / 16 % 16 =
      b % 16 := by omega
  have e6 : (a * 2 ^ 24 + b * 2 ^ 16 + c * 2 ^ 8 + d) / 16 / 16 / 16 / 16 / 16 % 16 =
      b / 16 := by omega
  have e7 : (a * 2 ^ 24 + b * 2 ^ 16 + c * 2 ^ 8 + d) / 16 / 16 / 16 / 16 / 16 / 16 % 16 =
      a % 16 := by omega
  have e8 : (a * 2 ^ 24 + b * 2 ^ 16 + c * 2 ^ 8 + d) / 16 / 16 / 16 / 16 / 16 / 16 / 16 %
      16 = a / 16 := by omega
  simp only [hexFixed, hexPair, e1, e2, e3, e4, e5, e6, e7, e8, List.nil_append,
    List.cons_append, List.singleton_append]

/-- The key of a dotted quad with octets in `[0,255]`. -/
theorem ipToHex_address (E : Engine) (s : String) (a b c d : Nat)
    (h : IsAddress s a b c d) :
    ipToHex E s = ⟨'0' :: 'x' :: (hexPair a ++ hexPair b ++ hexPair c ++ hexPair d)⟩ := by
  obtain ⟨⟨g1, g2, g3, g4, hs, h1, h2, h3, h4, e1, e2, e3, e4⟩, ha, hb, hc, hd⟩ := h
  unfold ipToHex
  rw [hs, split_quad g1 g2 g3 g4 h1.2 h2.2 h3.2 h4.2]
  simp only [List.map_cons, List.map_nil, parseInt_digitGroup _ h1,
    parseInt_digitGroup _ h2, parseInt_digitGroup _ h3, parseInt_digitGroup _ h4,
    e1, e2, e3, e4, padStart_toString16_octet E _ ha, padStart_toString16_octet E _ hb,
    padStart_toString16_octet E _ hc, padStart_toString16_octet E _ hd]
  simp [List.flatten]

/-! ## The matcher and the shape check -/

theorem mem_repeatRun (body : List Char → List (List Char)) (M : List Char → Prop)
    (hbody : ∀ s r, r ∈ body s ↔ ∃ p, s = p ++ r ∧ M p) (lo hi : Nat) (s r : List Char) :
    r ∈ repeatRun body lo hi s ↔
      ∃ ps : List (List Char),
        s = ps.flatten ++ r ∧ lo ≤ ps.length ∧ ps.length ≤ hi ∧ ∀ q ∈ ps, M q := by
  induction hi generalizing lo s with
  | zero =>
    constructor
    · intro h
      by_cases hlo : lo = 0
      · simp [repeatRun, hlo] at h
        exact ⟨[], by simp [h], by simp [hlo], by simp, by simp⟩
      · simp [repeatRun, hlo] at h
    · rintro ⟨ps, hs, h1, h2, -⟩
      have hps : ps = [] := List.length_eq_zero.mp (by omega)
      subst hps
      have hlo : lo = 0 := by simpa using h1
      simp [repeatRun, hlo, hs]
  | succ hi ih =>
    constructor
    · intro h
      simp only [repeatRun, List.mem_append, List.mem_flatMap] at h
      rcases h with ⟨s1, hs1, hr⟩ | h
      · obtain ⟨q, hq, hM⟩ := (hbody s s1).mp hs1
        obtain ⟨ps, hps, h1, h2, h3⟩ := (ih (lo - 1) s1).mp hr
        refine ⟨q :: ps, ?_, ?_, ?_, ?_⟩
        · simp [hq, hps]
        · simp only [List.length_cons]; omega
        · simp only [List.length_cons]; omega
        · intro x hx
          rcases List.mem_cons.mp hx with hx | hx
          · exact hx ▸ hM
          · exact h3 x hx
      · by_cases hlo : lo = 0
        · simp [hlo] at h
          exact ⟨[], by simp [h], by simp [hlo], by simp, by simp⟩
        · simp [hlo] at h
    · rintro ⟨ps, hs, h1, h2, h3⟩
      simp only [repeatRun, List.mem_append, List.mem_flatMap]
      cases ps with
      | nil =>
        right
        have hlo : lo = 0 := by simpa using h1
        simp [hlo, hs]
      | cons q ps =>
        left
        refine ⟨ps.flatten ++ r, ?_, ?_⟩
        · exact (hbody s _).mpr ⟨q, by simp [hs], h3 q (by simp)⟩
        · refine (ih (lo - 1) _).mpr ⟨ps, rfl, ?_, ?_, fun x hx => h3 x (by simp [hx])⟩
          · simp only [List.length_cons] at h1; omega
          · simp only [List.length_cons] at h2; omega

/-- The backtracking matcher leaves `r` exactly when the input is a matched
string followed by `r`. -/
theorem mem_run (re : Regex) :
    ∀ s r, r ∈ re.run s ↔ ∃ p, s = p ++ r ∧ re.Matches p := by
  induction re with
  | digit =>
    intro s r
    cases s with
    | nil => simp [Regex.run, Regex.Matches]
    | cons c cs =>
      by_cases hc : c.isDigit = true
      · simp only [Regex.run, hc, if_true, List.mem_singleton, Regex.Matches]
        constructor
        · intro h; exact ⟨[c], by simp [h], c, rfl, hc⟩
        · rintro ⟨p, hp, d, rfl, -⟩
          simp at hp
          exact hp.2.symm
      · simp only [Regex.run, hc, Regex.Matches]
        constructor
        · intro h; simp at h
        · rintro ⟨p, hp, d, rfl, hd⟩
          simp at hp
          exact absurd (hp.1 ▸ hd) hc
  | char d =>
    intro s r
    cases s with
    | nil => simp [Regex.run, Regex.Matches]
    | cons c cs =>
      by_cases hc : c = d
      · simp only [Regex.run, hc, if_true, List.mem_singleton, Regex.Matches]
        constructor
        · intro h; exact ⟨[d], by simp [h], rfl⟩
        · rintro ⟨p, hp, rfl⟩
          simp at hp
          exact hp.symm
      · simp only [Regex.run, hc, Regex.Matches]
        constructor
        · intro h; simp at h
        · rintro ⟨p, hp, rfl⟩
          simp at hp
          exact absurd hp.1 hc
  | seq a b iha ihb =>
    intro s r
    simp only [Regex.run, List.mem_flatMap, Regex.Matches]
    constructor
    · rintro ⟨s1, h1, h2⟩
      obtain ⟨p1, hp1, hm1⟩ := (iha s s1).mp h1
      obtain ⟨p2, hp2, hm2⟩ := (ihb s1 r).mp h2
      exact ⟨p1 ++ p2, by simp [hp1, hp2], p1, p2, rfl, hm1, hm2⟩
    · rintro ⟨p, hp, p1, p2, rfl, hm1, hm2⟩
      exact ⟨p2 ++ r, (iha s _).mpr ⟨p1, by simp [hp], hm1⟩, (ihb _ r).mpr ⟨p2, rfl, hm2⟩⟩
  | group a iha =>
    intro s r
    simpa [Regex.run, Regex.Matches] using iha s r
  | rep a lo hi iha =>
    intro s r
    simp only [Regex.run, Regex.Matches]
    rw [mem_repeatRun (Regex.run a) (Regex.Matches a) iha lo hi s r]
    constructor
    · rintro ⟨ps, hs, h1, h2, h3⟩
      exact ⟨ps.flatten, hs, ps, rfl, h1, h2, h3⟩
    · rintro ⟨p, hp, ps, rfl, h1, h2, h3⟩
      exact ⟨ps, hp, h1, h2, h3⟩

theorem test_iff_matches (re : Regex) (s : String) :
    re.test s = true ↔ re.Matches s.data := by
  unfold Regex.test
  rw [List.any_eq_true]
  constructor
  · rintro ⟨r, hr, he⟩
    have hr0 : r = [] := by simpa using he
    subst hr0
    obtain ⟨p, hp, hm⟩ := (mem_run re s.data []).mp hr
    simpa [hp] using hm
  · intro h
    exact ⟨[], (mem_run re s.data []).mpr ⟨s.data, by simp, h⟩, rfl⟩

theorem flatten_singletons (ps : List (List Char))
    (h : ∀ q ∈ ps, ∃ c : Char, q = [c] ∧ c.isDigit = true) :
    ps.flatten.length = ps.length ∧ ∀ c ∈ ps.flatten, c.isDigit = true := by
  induction ps with
  | nil => simp
  | cons q ps ih =>
    obtain ⟨c, rfl, hc⟩ := h q (by simp)
    obtain ⟨h1, h2⟩ := ih (fun x hx => h x (by simp [hx]))
    refine ⟨by simp [h1], ?_⟩
    intro d hd
    simp only [List.flatten_cons, List.singleton_append, List.mem_cons] at hd
    rcases hd with hd | hd
    · exact hd ▸ hc
    · exact h2 d hd

theorem flatten_map_singleton (g : List Char) :
    (g.map fun c => [c]).flatten = g := by
  induction g with
  | nil => rfl
  | cons c g ih => simp [ih]

theorem matches_shortGroup (g : List Char) :
    (Regex.rep Regex.digit 1 3).Matches g ↔ IsShortGroup g := by
  simp only [Regex.Matches, IsShortGroup]
  constructor
  · rintro ⟨ps, rfl, h1, h2, h3⟩
    obtain ⟨e, hd⟩ := flatten_singletons ps h3
    exact ⟨by omega, by omega, hd⟩
  · rintro ⟨h1, h2, h3⟩
    refine ⟨g.map fun c => [c], (flatten_map_singleton g).symm, by simpa using h1,
      by simpa using h2, ?_⟩
    intro q hq
    obtain ⟨c, hc, rfl⟩ := List.mem_map.mp hq
    exact ⟨c, rfl, h3 c hc⟩

theorem matches_dottedGroup (q : List Char) :
    (Regex.group (Regex.seq (Regex.rep Regex.digit 1 3) (Regex.char '.'))).Matches q ↔
      ∃ g, q = g ++ ['.'] ∧ IsShortGroup g := by
  have key : ∀ p1 : List Char,
      (Regex.rep Regex.digit 1 3).Matches p1 ↔ IsShortGroup p1 := matches_shortGroup
  constructor
  · intro h
    obtain ⟨p1, p2, hq, h1, h2⟩ : ∃ p1 p2, q = p1 ++ p2 ∧
        (Regex.rep Regex.digit 1 3).Matches p1 ∧ (Regex.char '.').Matches p2 := h
    have h2 : p2 = ['.'] := h2
    exact ⟨p1, by rw [hq, h2], (key p1).mp h1⟩
  · rintro ⟨g, rfl, hg⟩
    exact ⟨g, ['.'], rfl, (key g).mpr hg, rfl⟩

theorem matches_ipRegex (p : List Char) :
    ipRegex.Matches p ↔
      ∃ g1 g2 g3 g4 : List Char,
        p = g1 ++ '.' :: (g2 ++ '.' :: (g3 ++ '.' :: g4)) ∧
        IsShortGroup g1 ∧ IsShortGroup g2 ∧ IsShortGroup g3 ∧ IsShortGroup g4 := by
  constructor
  · intro h
    obtain ⟨p1, p2, hp, ⟨ps, hps, hlo, hhi, hall⟩, h2⟩ : ∃ p1 p2, p = p1 ++ p2 ∧
        (∃ ps : List (List Char), p1 = ps.flatten ∧ 3 ≤ ps.length ∧ ps.length ≤ 3 ∧
          ∀ q ∈ ps,
            (Regex.group
              (Regex.seq (Regex.rep Regex.digit 1 3) (Regex.char '.'))).Matches q) ∧
        (Regex.rep Regex.digit 1 3).Matches p2 := h
    match ps, hlo, hhi with
    | [q1, q2, q3], _, _ =>
      obtain ⟨g1, e1, s1⟩ := (matches_dottedGroup q1).mp (hall q1 (by simp))
      obtain ⟨g2, e2, s2⟩ := (matches_dottedGroup q2).mp (hall q2 (by simp))
      obtain ⟨g3, e3, s3⟩ := (matches_dottedGroup q3).mp (hall q3 (by simp))
      refine ⟨g1, g2, g3, p2, ?_, s1, s2, s3, (matches_shortGroup p2).mp h2⟩
      rw [hp, hps, e1, e2, e3]
      simp
  · rintro ⟨g1, g2, g3, g4, rfl, s1, s2, s3, s4⟩
    refine ⟨(g1 ++ ['.']) ++ ((g2 ++ ['.']) ++ (g3 ++ ['.'])), g4, by simp, ?_,
      (matches_shortGroup g4).mpr s4⟩
    refine ⟨[g1 ++ ['.'], g2 ++ ['.'], g3 ++ ['.']], by simp, by simp, by simp, ?_⟩
    intro q hq
    simp only [List.mem_cons, List.mem_singleton, List.not_mem_nil, or_false] at hq
    rcases hq with rfl | rfl | rfl
    · exact (matches_dottedGroup _).mpr ⟨g1, rfl, s1⟩
    · exact (matches_dottedGroup _).mpr ⟨g2, rfl, s2⟩
    · exact (matches_dottedGroup _).mpr ⟨g3, rfl, s3⟩

/-- The regular expression of the registration accepts exactly the strings of
four groups of one to three digits separated by single dots. -/
theorem ipRegex_test_iff (s : String) :
    ipRegex.test s = true ↔ IsDottedQuadShape s :=
  (test_iff_matches ipRegex s).trans (matches_ipRegex s.data)

/-! ## Authorization -/

theorem isAdminIP_eq_true_iff (E : Engine) (cfg : Config) (ip : String) :
    isAdminIP E cfg ip = true ↔
      ∃ a ∈ cfg.adminIps.getD [], ipToHex E a = ipToHex E ip := by
  simp [isAdminIP, List.any_eq_true]

/-- C1: `isAdminIP(ip)` is true exactly when some entry `a` of `adminIps` (the
empty list when the field is absent) has `ipToHex(a) = ipToHex(ip)`; with the
stored list `["10.0.0.1"]` the candidates `"10.0.0.1"` and `"010.0.0.1"` are
admins and `"10.0.0.2"` is not; with an empty or absent list nobody is. -/
theorem isAdminIP_iff_some_key_equal (E : Engine) :
    (∀ (cfg : Config) (ip : String),
      isAdminIP E cfg ip = true ↔
        ∃ a ∈ cfg.adminIps.getD [], ipToHex E a = ipToHex E ip) ∧
    (∀ (t : Telegram) (rest : List (String × String)),
      isAdminIP E ⟨t, some ["10.0.0.1"], rest⟩ "10.0.0.1" = true ∧
      isAdminIP E ⟨t, some ["10.0.0.1"], rest⟩ "10.0.0.2" = false ∧
      isAdminIP E ⟨t, some ["10.0.0.1"], rest⟩ "010.0.0.1" = true) ∧
    (∀ (t : Telegram) (rest : List (String × String)) (ip : String),
      isAdminIP E ⟨t, some [], rest⟩ ip = false ∧
      isAdminIP E ⟨t, none, rest⟩ ip = false) := by
  refine ⟨isAdminIP_eq_true_iff E, ?_, ?_⟩
  · intro t rest
    refine ⟨?_, ?_, ?_⟩
    · simp [isAdminIP]
    · have h1 : ipToHex E "10.0.0.1" = "0x0a000001" := by rfl
      have h2 : ipToHex E "10.0.0.2" = "0x0a000002" := by rfl
      simp [isAdminIP, h1, h2]
    · have h : ipToHex E "10.0.0.1" = ipToHex E "010.0.0.1" := by rfl
      simp [isAdminIP, h]
  · intro t rest ip
    exact ⟨rfl, rfl⟩

/-! ## Normalization -/

/-- C2: two strings of four dot-separated non-empty groups of decimal digits
whose groups denote the same integers of `[0,255]` have the same key, whatever
the leading zeros. -/
theorem ipToHex_leading_zeros (E : Engine) (s t : String) (a b c d : Nat)
    (hs : IsAddress s a b c d) (ht : IsAddress t a b c d) :
    ipToHex E s = ipToHex E t := by
  rw [ipToHex_address E s a b c d hs, ipToHex_address E t a b c d ht]

theorem isAddress_192_168_1_1 : IsAddress "192.168.1.1" 192 168 1 1 :=
  ⟨⟨['1', '9', '2'], ['1', '6', '8'], ['1'], ['1'], rfl, by decide, by decide,
    by decide, by decide, rfl, rfl, rfl, rfl⟩, by decide, by decide, by decide, by decide⟩

theorem isAddress_192_168_001_001 : IsAddress "192.168.001.001" 192 168 1 1 :=
  ⟨⟨['1', '9', '2'], ['1', '6', '8'], ['0', '0', '1'], ['0', '0', '1'], rfl, by decide,
    by decide, by decide, by decide, rfl, rfl, rfl, rfl⟩,
    by decide, by decide, by decide, by decide⟩

theorem isAddress_10_0_0_1 : IsAddress "10.0.0.1" 10 0 0 1 :=
  ⟨⟨['1', '0'], ['0'], ['0'], ['1'], rfl, by decide, by decide,
    by decide, by decide, rfl, rfl, rfl, rfl⟩, by decide, by decide, by decide, by decide⟩

theorem isAddress_16_0_0_1 : IsAddress "16.0.0.1" 16 0 0 1 :=
  ⟨⟨['1', '6'], ['0'], ['0'], ['1'], rfl, by decide, by decide,
    by decide, by decide, rfl, rfl, rfl, rfl⟩, by decide, by decide, by decide, by decide⟩

theorem ipToHex_leading_zeros_witness :
    IsAddress "192.168.1.1" 192 168 1 1 ∧ IsAddress "192.168.001.001" 192 168 1 1 ∧
      ipToHex Engine.roundToNearest "192.168.1.1" =
        ipToHex Engine.roundToNearest "192.168.001.001" :=
  ⟨isAddress_192_168_1_1, isAddress_192_168_001_001,
    ipToHex_leading_zeros Engine.roundToNearest "192.168.1.1" "192.168.001.001" 192 168 1 1
      isAddress_192_168_1_1 isAddress_192_168_001_001⟩

/-- C6: on a string of four dot-separated non-empty groups of decimal digits
with values `a`, `b`, `c`, `d` in `[0,255]`, `ipToHex` returns the 10 characters
`0x` followed by the two-digit lowercase hexadecimal renderings of `a`, `b`,
`c`, `d`, which is `0x` followed by the 8 digits of `a*2^24 + b*2^16 + c*2^8 + d`. -/
theorem ipToHex_fixed_width (E : Engine) (s : String) (a b c d : Nat)
    (h : IsAddress s a b c d) :
    ipToHex E s = ⟨'0' :: 'x' :: (hexPair a ++ hexPair b ++ hexPair c ++ hexPair d)⟩ ∧
    (ipToHex E s).length = 10 ∧
    ipToHex E s = ⟨'0' :: 'x' :: hexFixed 8 (a * 2 ^ 24 + b * 2 ^ 16 + c * 2 ^ 8 + d)⟩ := by
  have key := ipToHex_address E s a b c d h
  obtain ⟨-, ha, hb, hc, hd⟩ := h
  refine ⟨key, ?_, ?_⟩
  · rw [key]
    rfl
  · rw [key, hexFixed_quad a b c d ha hb hc hd]

theorem ipToHex_fixed_width_witness :
    IsAddress "10.0.0.1" 10 0 0 1 ∧
      ipToHex Engine.roundToNearest "10.0.0.1" = "0x0a000001" ∧
      (ipToHex Engine.roundToNearest "10.0.0.1").length = 10 ∧
      hexFixed 8 (10 * 2 ^ 24 + 0 * 2 ^ 16 + 0 * 2 ^ 8 + 1) =
        ['0', 'a', '0', '0', '0', '0', '0', '1'] :=
  ⟨isAddress_10_0_0_1,
    (ipToHex_fixed_width Engine.roundToNearest "10.0.0.1" 10 0 0 1 isAddress_10_0_0_1).1,
    (ipToHex_fixed_width Engine.roundToNearest "10.0.0.1" 10 0 0 1 isAddress_10_0_0_1).2.1,
    by decide⟩

theorem quad_injective (a b c d a1 b1 c1 d1 : Nat)
    (ha : a ≤ 255) (hb : b ≤ 255) (hc : c ≤ 255) (hd : d ≤ 255)
    (ha1 : a1 ≤ 255) (hb1 : b1 ≤ 255) (hc1 : c1 ≤ 255) (hd1 : d1 ≤ 255)
    (h : hexPair a ++ hexPair b ++ hexPair c ++ hexPair d =
      hexPair a1 ++ hexPair b1 ++ hexPair c1 ++ hexPair d1) :
    a = a1 ∧ b = b1 ∧ c = c1 ∧ d = d1 := by
  simp only [hexPair, List.cons_append, List.nil_append, List.cons.injEq, and_true] at h
  obtain ⟨h1, h2, h3, h4, h5, h6, h7, h8⟩ := h
  exact ⟨hexPair_injective a a1 ha ha1 (by simp [hexPair, h1, h2]),
    hexPair_injective b b1 hb hb1 (by simp [hexPair, h3, h4]),
    hexPair_injective c c1 hc hc1 (by simp [hexPair, h5, h6]),
    hexPair_injective d d1 hd hd1 (by simp [hexPair, h7, h8])⟩

theorem address_key_injective (E : Engine) (s t : String) (a b c d a1 b1 c1 d1 : Nat)
    (hs : IsAddress s a b c d) (ht : IsAddress t a1 b1 c1 d1)
    (h : ipToHex E s = ipToHex E t) : a = a1 ∧ b = b1 ∧ c = c1 ∧ d = d1 := by
  rw [ipToHex_address E s a b c d hs, ipToHex_address E t a1 b1 c1 d1 ht] at h
  have h1 := congrArg String.data h
  simp only [List.cons.injEq, true_and] at h1
  exact quad_injective a b c d a1 b1 c1 d1 hs.2.1 hs.2.2.1 hs.2.2.2.1 hs.2.2.2.2
    ht.2.1 ht.2.2.1 ht.2.2.2.1 ht.2.2.2.2 h1

/-- C10: on strings of four dot-separated non-empty groups of decimal digits
with values in `[0,255]`, equal keys force equal octets; so when every stored
admin IP and the candidate are such strings, `isAdminIP` returns true only if
some stored admin IP denotes the four octets of the candidate. -/
theorem ipToHex_injective_on_addresses (E : Engine) (s t : String)
    (a b c d a1 b1 c1 d1 : Nat)
    (hs : IsAddress s a b c d) (ht : IsAddress t a1 b1 c1 d1) :
    (ipToHex E s = ipToHex E t → a = a1 ∧ b = b1 ∧ c = c1 ∧ d = d1) ∧
    (∀ cfg : Config,
      (∀ x ∈ cfg.adminIps.getD [], ∃ p q r u, IsAddress x p q r u) →
      isAdminIP E cfg s = true →
      ∃ x ∈ cfg.adminIps.getD [], IsAddress x a b c d) := by
  refine ⟨address_key_injective E s t a b c d a1 b1 c1 d1 hs ht, ?_⟩
  intro cfg hall hadm
  obtain ⟨x, hx, hkey⟩ := (isAdminIP_eq_true_iff E cfg s).mp hadm
  obtain ⟨p, q, r, u, hxa⟩ := hall x hx
  obtain ⟨rfl, rfl, rfl, rfl⟩ := address_key_injective E x s p q r u a b c d hxa hs hkey
  exact ⟨x, hx, hxa⟩

theorem ipToHex_injective_on_addresses_witness :
    IsAddress "192.168.001.001" 192 168 1 1 ∧ IsAddress "192.168.1.1" 192 168 1 1 ∧
      isAdminIP Engine.roundToNearest ⟨⟨"token", "42"⟩, some ["192.168.1.1"], []⟩
        "192.168.001.001" = true ∧
      ∃ x ∈ (some ["192.168.1.1"] : Option (List String)).getD [],
        IsAddress x 192 168 1 1 :=
  ⟨isAddress_192_168_001_001, isAddress_192_168_1_1, by decide,
    (ipToHex_injective_on_addresses Engine.roundToNearest "192.168.001.001" "192.168.1.1"
      192 168 1 1 192 168 1 1 isAddress_192_168_001_001 isAddress_192_168_1_1).2
      ⟨⟨"token", "42"⟩, some ["192.168.1.1"], []⟩
      (by
        intro x hx
        have hx1 : x = "192.168.1.1" := by simpa using hx
        exact ⟨192, 168, 1, 1, hx1 ▸ isAddress_192_168_1_1⟩)
      (by decide)⟩

/-! ## Registration -/

/-- C5: the regular expression of the registration accepts a string exactly
when it is four groups of one to three decimal digits separated by single dots,
with nothing before or after; the groups are not bounded to `[0,255]`:
`"999.999.999"` is rejected and `"999.999.999.999"` is accepted. -/
theorem ipRegex_accepts_shape :
    (∀ s : String, ipRegex.test s = true ↔ IsDottedQuadShape s) ∧
    ipRegex.test "999.999.999" = false ∧
    ipRegex.test "999.999.999.999" = true ∧
    IsDottedQuadShape "999.999.999.999" ∧ ¬ IsDottedQuadShape "999.999.999" :=
  ⟨ipRegex_test_iff, by decide, by decide, (ipRegex_test_iff _).mp (by decide),
    fun h => absurd ((ipRegex_test_iff _).mpr h) (by decide)⟩

theorem successMessage_head (ip : String) (n : Nat) :
    (successMessage ip n).data.head? = some '✅' := by
  simp [successMessage, String.data_append]

theorem successMessage_not_rejection (ip : String) (n : Nat) :
    successMessage ip n ∉
      [unauthorizedMessage, usageMessage, invalidFormatMessage, alreadyAuthorizedMessage] := by
  intro h
  have hh := successMessage_head ip n
  simp only [List.mem_cons, List.mem_singleton, List.not_mem_nil, or_false] at h
  rcases h with h | h | h | h <;> rw [h] at hh <;> revert hh <;> decide

theorem execute_not_owner (config : Config) (chatId : Int) (args : List String)
    (h : toString chatId ≠ config.telegram.chatId) :
    execute config chatId args = ⟨chatId, unauthorizedMessage, none⟩ := by
  simp [execute, h]

theorem execute_no_argument (config : Config) (chatId : Int)
    (h : toString chatId = config.telegram.chatId) :
    execute config chatId [] = ⟨chatId, usageMessage, none⟩ := by
  simp [execute, h]

theorem execute_bad_shape (config : Config) (chatId : Int) (ip : String)
    (more : List String) (h : toString chatId = config.telegram.chatId)
    (hshape : ipRegex.test ip = false) :
    execute config chatId (ip :: more) = ⟨chatId, invalidFormatMessage, none⟩ := by
  simp [execute, h, hshape]

theorem execute_duplicate (config : Config) (chatId : Int) (ip : String)
    (more : List String) (h : toString chatId = config.telegram.chatId)
    (hshape : ipRegex.test ip = true) (hmem : ip ∈ config.adminIps.getD []) :
    execute config chatId (ip :: more) = ⟨chatId, alreadyAuthorizedMessage, none⟩ := by
  simp [execute, h, hshape, hmem]

theorem execute_added (config : Config) (chatId : Int) (ip : String)
    (more : List String) (h : toString chatId = config.telegram.chatId)
    (hshape : ipRegex.test ip = true) (hmem : ip ∉ config.adminIps.getD []) :
    execute config chatId (ip :: more) =
      ⟨chatId, successMessage ip ((config.adminIps.getD []).length + 1),
        some { config with adminIps := some (config.adminIps.getD [] ++ [ip]) }⟩ := by
  simp [execute, h, hshape, hmem]

/-- C3: `execute` rejects and writes nothing exactly when the caller is not the
owner, or there is no argument, or the first argument fails the regular
expression, or the first argument is already an element of `adminIps`; the
checks come in that order, so a caller who is not the owner always gets the
`Unauthorized` reply; the four rejection replies are pairwise distinct and
differ from every success reply. -/
theorem execute_rejects_iff (config : Config) (chatId : Int) (args : List String) :
    ((execute config chatId args).written = none ↔
      (toString chatId ≠ config.telegram.chatId ∨ args = [] ∨
        (∃ ip more, args = ip :: more ∧ ipRegex.test ip = false) ∨
        (∃ ip more, args = ip :: more ∧ ip ∈ config.adminIps.getD []))) ∧
    ((execute config chatId args).text ∈
        [unauthorizedMessage, usageMessage, invalidFormatMessage, alreadyAuthorizedMessage] ↔
      (toString chatId ≠ config.telegram.chatId ∨ args = [] ∨
        (∃ ip more, args = ip :: more ∧ ipRegex.test ip = false) ∨
        (∃ ip more, args = ip :: more ∧ ip ∈ config.adminIps.getD []))) ∧
    (toString chatId ≠ config.telegram.chatId →
      execute config chatId args = ⟨chatId, unauthorizedMessage, none⟩) ∧
    (toString chatId = config.telegram.chatId → args = [] →
      execute config chatId args = ⟨chatId, usageMessage, none⟩) ∧
    (∀ ip more, toString chatId = config.telegram.chatId → args = ip :: more →
      ipRegex.test ip = false →
      execute config chatId args = ⟨chatId, invalidFormatMessage, none⟩) ∧
    (∀ ip more, toString chatId = config.telegram.chatId → args = ip :: more →
      ipRegex.test ip = true → ip ∈ config.adminIps.getD [] →
      execute config chatId args = ⟨chatId, alreadyAuthorizedMessage, none⟩) ∧
    [unauthorizedMessage, usageMessage, invalidFormatMessage,
      alreadyAuthorizedMessage].Nodup ∧
    (∀ (ip : String) (total : Nat),
      successMessage ip total ∉
        [unauthorizedMessage, usageMessage, invalidFormatMessage,
          alreadyAuthorizedMessage]) := by
  refine ⟨?_, ?_, execute_not_owner config chatId args, ?_, ?_, ?_, by decide,
    successMessage_not_rejection⟩
  · by_cases ho : toString chatId = config.telegram.chatId
    · cases args with
      | nil => simp [execute_no_argument config chatId ho]
      | cons ip more =>
        cases hs : ipRegex.test ip with
        | false => simp [execute_bad_shape config chatId ip more ho hs, hs]
        | true =>
          by_cases hm : ip ∈ config.adminIps.getD []
          · simp [execute_duplicate config chatId ip more ho hs hm, hm]
          · simp [execute_added config chatId ip more ho hs hm, hm, hs, ho]
    · simp [execute_not_owner config chatId args ho, ho]
  · by_cases ho : toString chatId = config.telegram.chatId
    · cases args with
      | nil => simp [execute_no_argument config chatId ho]
      | cons ip more =>
        cases hs : ipRegex.test ip with
        | false => simp [execute_bad_shape config chatId ip more ho hs, hs]
        | true =>
          by_cases hm : ip ∈ config.adminIps.getD []
          · simp [execute_duplicate config chatId ip more ho hs hm, hm]
          · have hn := successMessage_not_rejection ip ((config.adminIps.getD []).length + 1)
            simp only [List.mem_cons, List.mem_singleton, List.not_mem_nil, or_false] at hn
            simp [execute_added config chatId ip more ho hs hm, hm, hs, ho, hn]
    · simp [execute_not_owner config chatId args ho, ho]
  · intro ho ha
    subst ha
    exact execute_no_argument config chatId ho
  · intro ip more ho ha hs
    subst ha
    exact execute_bad_shape config chatId ip more ho hs
  · intro ip more ho ha hs hm
    subst ha
    exact execute_duplicate config chatId ip more ho hs hm

theorem execute_rejects_iff_witness :
    execute ⟨⟨"token", "42"⟩, some ["10.0.0.1"], []⟩ 7 ["10.0.0.2"] =
        ⟨7, unauthorizedMessage, none⟩ ∧
      execute ⟨⟨"token", "42"⟩, some ["10.0.0.1"], []⟩ 7 ["10.0.0"] =
        ⟨7, unauthorizedMessage, none⟩ ∧
      execute ⟨⟨"token", "42"⟩, some ["10.0.0.1"], []⟩ 7 [] =
        ⟨7, unauthorizedMessage, none⟩ ∧
      execute ⟨⟨"token", "42"⟩, some ["10.0.0.1"], []⟩ 42 ["10.0.0"] =
        ⟨42, invalidFormatMessage, none⟩ ∧
      execute ⟨⟨"token", "42"⟩, some ["10.0.0.1"], []⟩ 42 ["10.0.0.1"] =
        ⟨42, alreadyAuthorizedMessage, none⟩ :=
  ⟨(execute_rejects_iff ⟨⟨"token", "42"⟩, some ["10.0.0.1"], []⟩ 7 ["10.0.0.2"]).2.2.1
      (by decide),
    (execute_rejects_iff ⟨⟨"token", "42"⟩, some ["10.0.0.1"], []⟩ 7 ["10.0.0"]).2.2.1
      (by decide),
    (execute_rejects_iff ⟨⟨"token", "42"⟩, some ["10.0.0.1"], []⟩ 7 []).2.2.1 (by decide),
    (execute_rejects_iff ⟨⟨"token", "42"⟩, some ["10.0.0.1"], []⟩ 42
      ["10.0.0"]).2.2.2.2.1 "10.0.0" [] (by decide) rfl (by decide),
    (execute_rejects_iff ⟨⟨"token", "42"⟩, some ["10.0.0.1"], []⟩ 42
      ["10.0.0.1"]).2.2.2.2.2.1 "10.0.0.1" [] (by decide) rfl (by decide) (by decide)⟩

/-- C4: when the caller is the owner and the first argument `ip` passes the
regular expression and is not yet in `adminIps`, `execute` writes the
configuration whose `adminIps` is the previous list (empty when absent) with
the string `ip` itself appended last, every other field unchanged, and reports
the previous length plus one. -/
theorem execute_appends (config : Config) (chatId : Int) (args : List String)
    (ip : String) (more : List String)
    (howner : toString chatId = config.telegram.chatId) (hargs : args = ip :: more)
    (hshape : ipRegex.test ip = true) (hnew : ip ∉ config.adminIps.getD []) :
    ∃ (written : Config) (stored : List String),
      (execute config chatId args).written = some written ∧
      written.adminIps = some stored ∧
      stored = config.adminIps.getD [] ++ [ip] ∧
      stored.length = (config.adminIps.getD []).length + 1 ∧
      (∀ i, i < (config.adminIps.getD []).length →
        stored[i]? = (config.adminIps.getD [])[i]?) ∧
      stored.getLast? = some ip ∧
      written.telegram = config.telegram ∧
      written.rest = config.rest ∧
      (execute config chatId args).chat = chatId ∧
      (execute config chatId args).text =
        successMessage ip ((config.adminIps.getD []).length + 1) := by
  subst hargs
  rw [execute_added config chatId ip more howner hshape hnew]
  refine ⟨_, _, rfl, rfl, rfl, by simp, ?_, by simp, rfl, rfl, rfl, rfl⟩
  intro i hi
  exact List.getElem?_append_left hi

theorem execute_appends_witness :
    ∃ (written : Config) (stored : List String),
      (execute ⟨⟨"token", "42"⟩, some ["10.0.0.1"], [("port", "5000")]⟩ 42
        ["010.000.000.001"]).written = some written ∧
      written.adminIps = some stored ∧
      stored = ["10.0.0.1"] ++ ["010.000.000.001"] ∧
      stored.length = 1 + 1 ∧
      (∀ i, i < 1 → stored[i]? = ["10.0.0.1"][i]?) ∧
      stored.getLast? = some "010.000.000.001" ∧
      written.telegram = ⟨"token", "42"⟩ ∧
      written.rest = [("port", "5000")] ∧
      (execute ⟨⟨"token", "42"⟩, some ["10.0.0.1"], [("port", "5000")]⟩ 42
        ["010.000.000.001"]).chat = 42 ∧
      (execute ⟨⟨"token", "42"⟩, some ["10.0.0.1"], [("port", "5000")]⟩ 42
        ["010.000.000.001"]).text = successMessage "010.000.000.001" (1 + 1) :=
  execute_appends ⟨⟨"token", "42"⟩, some ["10.0.0.1"], [("port", "5000")]⟩ 42
    ["010.000.000.001"] "010.000.000.001" [] (by decide) rfl (by decide) (by decide)

theorem execute_written_inv (config : Config) (chatId : Int) (args : List String)
    (written : Config) (h : (execute config chatId args).written = some written) :
    ∃ ip more, args = ip :: more ∧ toString chatId = config.telegram.chatId ∧
      ipRegex.test ip = true ∧ ip ∉ config.adminIps.getD [] ∧
      written = { config with adminIps := some (config.adminIps.getD [] ++ [ip]) } := by
  by_cases ho : toString chatId = config.telegram.chatId
  · cases args with
    | nil => simp [execute_no_argument config chatId ho] at h
    | cons ip more =>
      cases hs : ipRegex.test ip with
      | false => simp [execute_bad_shape config chatId ip more ho hs] at h
      | true =>
        by_cases hm : ip ∈ config.adminIps.getD []
        · simp [execute_duplicate config chatId ip more ho hs hm] at h
        · rw [execute_added config chatId ip more ho hs hm] at h
          exact ⟨ip, more, rfl, ho, hs, hm, (Option.some.inj h).symm⟩
  · simp [execute_not_owner config chatId args ho] at h

/-- C7: for two distinct strings `s` and `t` that pass the regular expression
and have the same key, and an admin list containing neither, the owner
registering `s` and then `t` succeeds both times, the list grows by exactly two
with both literals stored, and `isAdminIP` answers the same for `s` and for `t`
on every configuration. -/
theorem register_same_address_twice (E : Engine) (config : Config) (chatId : Int)
    (s t : String) (more1 more2 : List String)
    (howner : toString chatId = config.telegram.chatId)
    (hs : ipRegex.test s = true) (ht : ipRegex.test t = true)
    (hne : s ≠ t) (hkey : ipToHex E s = ipToHex E t)
    (hs0 : s ∉ config.adminIps.getD []) (ht0 : t ∉ config.adminIps.getD []) :
    ∃ c1 c2 : Config,
      (execute config chatId (s :: more1)).written = some c1 ∧
      (execute config chatId (s :: more1)).text =
        successMessage s ((config.adminIps.getD []).length + 1) ∧
      (execute c1 chatId (t :: more2)).written = some c2 ∧
      (execute c1 chatId (t :: more2)).text =
        successMessage t ((config.adminIps.getD []).length + 2) ∧
      c2.adminIps = some (config.adminIps.getD [] ++ [s, t]) ∧
      (c2.adminIps.getD []).length = (config.adminIps.getD []).length + 2 ∧
      ∀ cfg : Config, isAdminIP E cfg s = isAdminIP E cfg t := by
  have h1 := execute_added config chatId s more1 howner hs hs0
  have howner1 : toString chatId =
      ({ config with adminIps := some (config.adminIps.getD [] ++ [s]) } : Config).telegram.chatId :=
    howner
  have ht1 : t ∉ ({ config with
      adminIps := some (config.adminIps.getD [] ++ [s]) } : Config).adminIps.getD [] := by
    simp only [Option.getD_some, List.mem_append, List.mem_singleton, not_or]
    exact ⟨ht0, fun e => hne e.symm⟩
  have h2 := execute_added _ chatId t more2 howner1 ht ht1
  refine ⟨_, _, by rw [h1], by rw [h1], by rw [h2], ?_, ?_, ?_, ?_⟩
  · rw [h2]
    simp
  · simp
  · simp
  · intro cfg
    simp [isAdminIP, hkey]

theorem register_same_address_twice_witness :
    ∃ c1 c2 : Config,
      (execute ⟨⟨"token", "42"⟩, none, []⟩ 42 ("10.0.0.1" :: [])).written = some c1 ∧
      (execute ⟨⟨"token", "42"⟩, none, []⟩ 42 ("10.0.0.1" :: [])).text =
        successMessage "10.0.0.1" (((none : Option (List String)).getD []).length + 1) ∧
      (execute c1 42 ("010.000.000.001" :: [])).written = some c2 ∧
      (execute c1 42 ("010.000.000.001" :: [])).text =
        successMessage "010.000.000.001"
          (((none : Option (List String)).getD []).length + 2) ∧
      c2.adminIps =
        some ((none : Option (List String)).getD [] ++ ["10.0.0.1", "010.000.000.001"]) ∧
      (c2.adminIps.getD []).length = ((none : Option (List String)).getD []).length + 2 ∧
      ∀ cfg : Config,
        isAdminIP Engine.roundToNearest cfg "10.0.0.1" =
          isAdminIP Engine.roundToNearest cfg "010.000.000.001" :=
  register_same_address_twice Engine.roundToNearest ⟨⟨"token", "42"⟩, none, []⟩ 42
    "10.0.0.1" "010.000.000.001" [] [] (by decide) (by decide) (by decide) (by decide)
    (by decide) (by decide) (by decide)

/-- C9: when `execute` writes a configuration, `isAdminIP` on the written
configuration is true for the registered `ip` and for every candidate for
which it was true on the configuration before the call. -/
theorem registration_grants_and_keeps (E : Engine) (config : Config) (chatId : Int)
    (args : List String) (written : Config)
    (h : (execute config chatId args).written = some written) :
    (∃ ip more, args = ip :: more ∧ isAdminIP E written ip = true) ∧
    (∀ candidate : String,
      isAdminIP E config candidate = true → isAdminIP E written candidate = true) := by
  obtain ⟨ip, more, hargs, -, -, -, hw⟩ := execute_written_inv config chatId args written h
  subst hw
  constructor
  · exact ⟨ip, more, hargs, by simp [isAdminIP]⟩
  · intro candidate hc
    rw [isAdminIP_eq_true_iff] at hc ⊢
    obtain ⟨a, ha, hkey⟩ := hc
    exact ⟨a, by simp [ha], hkey⟩

theorem registration_grants_and_keeps_witness :
    (∃ ip more, ["10.0.0.2"] = ip :: more ∧
      isAdminIP Engine.roundToNearest ⟨⟨"token", "42"⟩, some ["10.0.0.1", "10.0.0.2"], []⟩
        ip = true) ∧
    (∀ candidate : String,
      isAdminIP Engine.roundToNearest ⟨⟨"token", "42"⟩, some ["10.0.0.1"], []⟩
        candidate = true →
      isAdminIP Engine.roundToNearest ⟨⟨"token", "42"⟩, some ["10.0.0.1", "10.0.0.2"], []⟩
        candidate = true) :=
  registration_grants_and_keeps Engine.roundToNearest
    ⟨⟨"token", "42"⟩, some ["10.0.0.1"], []⟩ 42 ["10.0.0.2"]
    ⟨⟨"token", "42"⟩, some ["10.0.0.1", "10.0.0.2"], []⟩ (by decide)

/-! ## Malformed candidates -/

theorem hexDigit_mem (k : Nat) :
    hexDigit k ∈ ['0', '1', '2', '3', '4', '5', '6', '7', '8', '9',
      'a', 'b', 'c', 'd', 'e', 'f'] := by
  rcases Nat.lt_or_ge k 16 with h | h
  · interval_cases k <;> decide
  · have : hexDigit k = '0' := by
      unfold hexDigit
      exact List.getD_eq_default _ _ (by simpa using h)
    rw [this]
    decide

theorem hexDigit_ne (k : Nat) : hexDigit k ≠ 'N' ∧ hexDigit k ≠ '-' := by
  have h := hexDigit_mem k
  constructor <;> intro e <;> rw [e] at h <;> revert h <;> decide

theorem quad_chars (a b c d : Nat) (ch : Char)
    (h : ch ∈ hexPair a ++ hexPair b ++ hexPair c ++ hexPair d) : ch ≠ 'N' ∧ ch ≠ '-' := by
  simp only [hexPair, List.cons_append, List.nil_append, List.mem_cons, List.mem_singleton,
    List.not_mem_nil, or_false] at h
  rcases h with h | h | h | h | h | h | h | h <;> rw [h] <;> exact hexDigit_ne _

theorem mem_padStart (n : Nat) (fill ch : Char) (s : List Char) (h : ch ∈ s) :
    ch ∈ padStart n fill s := by
  unfold padStart
  exact List.mem_append_right _ h

theorem nan_or_minus_printed (E : Engine) (g : List Char)
    (h : parseInt g = JSNumber.nan ∨ ∃ m, m ≠ 0 ∧ parseInt g = JSNumber.int true m) :
    'N' ∈ padStart 2 '0' (toString16 E (parseInt g)) ∨
      '-' ∈ padStart 2 '0' (toString16 E (parseInt g)) := by
  rcases h with h | ⟨m, hm, h⟩
  · left
    rw [h]
    exact mem_padStart _ _ _ _ (by simp [toString16])
  · right
    rw [h]
    exact mem_padStart _ _ _ _ (by simp [toString16, hm])

theorem octet_printed_length (E : Engine) (g : List Char) (neg : Bool) (m : Nat)
    (h : parseInt g = JSNumber.int neg m) (hm : m ≤ 255)
    (hneg : ¬ ∃ k, k ≠ 0 ∧ parseInt g = JSNumber.int true k) :
    (padStart 2 '0' (toString16 E (parseInt g))).length = 2 := by
  rw [h]
  by_cases h0 : m = 0
  · subst h0
    simp [toString16, padStart]
  · cases neg with
    | true => exact absurd ⟨m, h0, h⟩ hneg
    | false =>
      rw [padStart_toString16_octet E m hm]
      rfl

theorem flatten_length_two (f : List Char → List Char) (gs : List (List Char))
    (h : ∀ g ∈ gs, (f g).length = 2) : (gs.map f).flatten.length = 2 * gs.length := by
  induction gs with
  | nil => rfl
  | cons g gs ih =>
    have h1 := h g (by simp)
    have h2 := ih (fun x hx => h x (by simp [hx]))
    simp only [List.map_cons, List.flatten_cons, List.length_append, List.length_cons, h1, h2]
    omega

theorem key_ne_of_malformed (E : Engine) (x candidate : String) (a b c d : Nat)
    (hx : IsAddress x a b c d)
    (hbad :
      (∃ g ∈ split '.' candidate.data,
        parseInt g = JSNumber.nan ∨ ∃ m, m ≠ 0 ∧ parseInt g = JSNumber.int true m) ∨
      ((split '.' candidate.data).length ≠ 4 ∧
        ∀ g ∈ split '.' candidate.data,
          ∃ neg m, parseInt g = JSNumber.int neg m ∧ m ≤ 255)) :
    ipToHex E x ≠ ipToHex E candidate := by
  intro hkey
  rw [ipToHex_address E x a b c d hx] at hkey
  have hbody := congrArg String.data hkey
  simp only [ipToHex, List.cons.injEq, true_and] at hbody
  have caseA : (∃ g ∈ split '.' candidate.data,
      parseInt g = JSNumber.nan ∨ ∃ m, m ≠ 0 ∧ parseInt g = JSNumber.int true m) → False := by
    rintro ⟨g, hg, hnan⟩
    have hin : ∀ ch, ch ∈ padStart 2 '0' (toString16 E (parseInt g)) →
        ch ∈ hexPair a ++ hexPair b ++ hexPair c ++ hexPair d := by
      intro ch hch
      rw [hbody]
      exact List.mem_flatten.mpr ⟨_, List.mem_map.mpr ⟨g, hg, rfl⟩, hch⟩
    rcases nan_or_minus_printed E g hnan with h | h
    · exact (quad_chars a b c d _ (hin _ h)).1 rfl
    · exact (quad_chars a b c d _ (hin _ h)).2 rfl
  rcases hbad with hA | ⟨hlen, hall⟩
  · exact caseA hA
  · by_cases hA : ∃ g ∈ split '.' candidate.data,
        ∃ m, m ≠ 0 ∧ parseInt g = JSNumber.int true m
    · obtain ⟨g, hg, hm⟩ := hA
      exact caseA ⟨g, hg, Or.inr hm⟩
    · have h2 : ∀ g ∈ split '.' candidate.data,
          (padStart 2 '0' (toString16 E (parseInt g))).length = 2 := by
        intro g hg
        obtain ⟨neg, m, hp, hm⟩ := hall g hg
        exact octet_printed_length E g neg m hp hm (fun hk => hA ⟨g, hg, hk⟩)
      have hl := congrArg List.length hbody
      rw [flatten_length_two _ _ h2] at hl
      simp only [hexPair, List.cons_append, List.nil_append, List.length_cons,
        List.length_nil] at hl
      omega

/-- C8, as the code has it: a candidate whose groups parse to small integers
can carry the key of a stored address. `"4096.0.1"` has three groups and is
accepted against the stored `"16.0.0.1"`; `" 10.0.0.1abc"` is accepted against
the stored `"10.0.0.1"`. -/
theorem malformed_candidate_accepted :
    ¬ IsDottedQuadShape "4096.0.1" ∧ IsAddress "16.0.0.1" 16 0 0 1 ∧
      ipToHex Engine.roundToNearest "4096.0.1" = "0x10000001" ∧
      ipToHex Engine.roundToNearest "16.0.0.1" = "0x10000001" ∧
      isAdminIP Engine.roundToNearest ⟨⟨"token", "42"⟩, some ["16.0.0.1"], []⟩
        "4096.0.1" = true ∧
      ¬ IsDottedQuadShape " 10.0.0.1abc" ∧ IsAddress "10.0.0.1" 10 0 0 1 ∧
      isAdminIP Engine.roundToNearest ⟨⟨"token", "42"⟩, some ["10.0.0.1"], []⟩
        " 10.0.0.1abc" = true :=
  ⟨fun h => absurd ((ipRegex_test_iff _).mpr h) (by decide), isAddress_16_0_0_1,
    by decide, by decide, by decide,
    fun h => absurd ((ipRegex_test_iff _).mpr h) (by decide), isAddress_10_0_0_1,
    by decide⟩

set_option maxRecDepth 100000 in
theorem threeDigits_spec :
    ∀ n, n < 256 → IsDigitGroup (threeDigits n) ∧ decimalValue (threeDigits n) = n := by
  decide

theorem isAddress_addressOf (a b c d : Nat) (ha : a ≤ 255) (hb : b ≤ 255) (hc : c ≤ 255)
    (hd : d ≤ 255) : IsAddress (addressOf a b c d) a b c d :=
  ⟨⟨threeDigits a, threeDigits b, threeDigits c, threeDigits d, rfl,
    (threeDigits_spec a (by omega)).1, (threeDigits_spec b (by omega)).1,
    (threeDigits_spec c (by omega)).1, (threeDigits_spec d (by omega)).1,
    (threeDigits_spec a (by omega)).2, (threeDigits_spec b (by omega)).2,
    (threeDigits_spec c (by omega)).2, (threeDigits_spec d (by omega)).2⟩, ha, hb, hc, hd⟩

theorem isAdminIP_address_list (E : Engine) (cfg : Config) (candidate : String)
    (hstored : ∀ x ∈ cfg.adminIps.getD [], ∃ a b c d, IsAddress x a b c d) :
    isAdminIP E cfg candidate = true ↔
      ∃ a b c d, (∃ x ∈ cfg.adminIps.getD [], IsAddress x a b c d) ∧
        ipToHex E candidate =
          ⟨'0' :: 'x' :: (hexPair a ++ hexPair b ++ hexPair c ++ hexPair d)⟩ := by
  rw [isAdminIP_eq_true_iff]
  constructor
  · rintro ⟨x, hx, hkey⟩
    obtain ⟨a, b, c, d, hxa⟩ := hstored x hx
    exact ⟨a, b, c, d, ⟨x, hx, hxa⟩, by rw [← hkey, ipToHex_address E x a b c d hxa]⟩
  · rintro ⟨a, b, c, d, ⟨x, hx, hxa⟩, hkey⟩
    exact ⟨x, hx, by rw [hkey, ipToHex_address E x a b c d hxa]⟩

theorem denied_of_key_ne (E : Engine) (cfg : Config) (candidate : String)
    (hstored : ∀ x ∈ cfg.adminIps.getD [], ∃ a b c d, IsAddress x a b c d)
    (hne : ¬ ∃ a b c d, a ≤ 255 ∧ b ≤ 255 ∧ c ≤ 255 ∧ d ≤ 255 ∧
      ipToHex E candidate =
        ⟨'0' :: 'x' :: (hexPair a ++ hexPair b ++ hexPair c ++ hexPair d)⟩) :
    isAdminIP E cfg candidate = false := by
  rw [Bool.eq_false_iff]
  intro h
  obtain ⟨a, b, c, d, ⟨x, -, hxa⟩, hkey⟩ :=
    (isAdminIP_address_list E cfg candidate hstored).mp h
  exact hne ⟨a, b, c, d, hxa.2.1, hxa.2.2.1, hxa.2.2.2.1, hxa.2.2.2.2, hkey⟩

/-- C8, amended: `ipToHex` returns a key starting with `0x` for every
candidate string, and against stored entries that are dotted quads with octets
in `[0,255]` the answer of `isAdminIP` is decided by that key alone: it is true
exactly when the key is `0x` followed by the two-digit hexadecimal renderings
of the four octets of a stored entry. So a candidate is denied by every such
list exactly when its key is not `0x` followed by the renderings of four octets
of `[0,255]`; this holds whenever the key does not have exactly 10 characters,
whenever some dot-separated group is read by `parseInt` as `NaN` or as a
negative integer, and whenever the number of groups is not four while each
group is read as an integer of magnitude at most 255. -/
theorem malformed_candidate_denied (E : Engine) (candidate : String) :
    (∃ body, ipToHex E candidate = ⟨'0' :: 'x' :: body⟩) ∧
    (∀ cfg : Config,
      (∀ x ∈ cfg.adminIps.getD [], ∃ a b c d, IsAddress x a b c d) →
      (isAdminIP E cfg candidate = true ↔
        ∃ a b c d, (∃ x ∈ cfg.adminIps.getD [], IsAddress x a b c d) ∧
          ipToHex E candidate =
            ⟨'0' :: 'x' :: (hexPair a ++ hexPair b ++ hexPair c ++ hexPair d)⟩)) ∧
    ((∀ cfg : Config,
        (∀ x ∈ cfg.adminIps.getD [], ∃ a b c d, IsAddress x a b c d) →
        isAdminIP E cfg candidate = false) ↔
      ¬ ∃ a b c d, a ≤ 255 ∧ b ≤ 255 ∧ c ≤ 255 ∧ d ≤ 255 ∧
        ipToHex E candidate =
          ⟨'0' :: 'x' :: (hexPair a ++ hexPair b ++ hexPair c ++ hexPair d)⟩) ∧
    ((ipToHex E candidate).length ≠ 10 →
      ∀ cfg : Config,
        (∀ x ∈ cfg.adminIps.getD [], ∃ a b c d, IsAddress x a b c d) →
        isAdminIP E cfg candidate = false) ∧
    (((∃ g ∈ split '.' candidate.data,
          parseInt g = JSNumber.nan ∨ ∃ m, m ≠ 0 ∧ parseInt g = JSNumber.int true m) ∨
        ((split '.' candidate.data).length ≠ 4 ∧
          ∀ g ∈ split '.' candidate.data,
            ∃ neg m, parseInt g = JSNumber.int neg m ∧ m ≤ 255)) →
      ∀ cfg : Config,
        (∀ x ∈ cfg.adminIps.getD [], ∃ a b c d, IsAddress x a b c d) →
        isAdminIP E cfg candidate = false) := by
  refine ⟨⟨_, rfl⟩, fun cfg => isAdminIP_address_list E cfg candidate, ⟨?_, ?_⟩, ?_, ?_⟩
  · intro hall hex
    obtain ⟨a, b, c, d, ha, hb, hc, hd, hkey⟩ := hex
    have hx := isAddress_addressOf a b c d ha hb hc hd
    have hden := hall ⟨⟨"", ""⟩, some [addressOf a b c d], []⟩ (by
      intro x hx1
      have hx2 : x = addressOf a b c d := by simpa using hx1
      exact ⟨a, b, c, d, hx2 ▸ hx⟩)
    have hacc : isAdminIP E ⟨⟨"", ""⟩, some [addressOf a b c d], []⟩ candidate = true := by
      rw [isAdminIP_eq_true_iff]
      exact ⟨addressOf a b c d, by simp, by rw [hkey, ipToHex_address E _ a b c d hx]⟩
    rw [hden] at hacc
    exact Bool.false_ne_true hacc
  · intro hne cfg hstored
    exact denied_of_key_ne E cfg candidate hstored hne
  · intro hlen cfg hstored
    refine denied_of_key_ne E cfg candidate hstored ?_
    rintro ⟨a, b, c, d, -, -, -, -, hkey⟩
    rw [hkey] at hlen
    exact hlen rfl
  · intro hbad cfg hstored
    rw [Bool.eq_false_iff]
    intro h
    obtain ⟨x, hx, hkey⟩ := (isAdminIP_eq_true_iff E cfg candidate).mp h
    obtain ⟨a, b, c, d, hxa⟩ := hstored x hx
    exact key_ne_of_malformed E x candidate a b c d hxa hbad hkey

theorem stored_10_0_0_1 :
    ∀ x ∈ (⟨⟨"token", "42"⟩, some ["10.0.0.1"], []⟩ : Config).adminIps.getD [],
      ∃ a b c d, IsAddress x a b c d := by
  intro x hx
  have hx1 : x = "10.0.0.1" := by simpa using hx
  exact ⟨10, 0, 0, 1, hx1 ▸ isAddress_10_0_0_1⟩

theorem malformed_candidate_denied_witness :
    (¬ IsDottedQuadShape "1000.0.0.1" ∧
      ipToHex Engine.roundToNearest "1000.0.0.1" = "0x3e8000001" ∧
      isAdminIP Engine.roundToNearest ⟨⟨"token", "42"⟩, some ["10.0.0.1"], []⟩
        "1000.0.0.1" = false) ∧
    (¬ IsDottedQuadShape "10.0.0.0256" ∧
      ipToHex Engine.roundToNearest "10.0.0.0256" = "0x0a0000100" ∧
      isAdminIP Engine.roundToNearest ⟨⟨"token", "42"⟩, some ["10.0.0.1"], []⟩
        "10.0.0.0256" = false) ∧
    (¬ IsDottedQuadShape "::ffff:10.0.0.1" ∧
      ipToHex Engine.roundToNearest "::ffff:10.0.0.1" = "0xNaN000001" ∧
      isAdminIP Engine.roundToNearest ⟨⟨"token", "42"⟩, some ["10.0.0.1"], []⟩
        "::ffff:10.0.0.1" = false) ∧
    (¬ IsDottedQuadShape "10.0.1" ∧
      ipToHex Engine.roundToNearest "10.0.1" = "0x0a0001" ∧
      isAdminIP Engine.roundToNearest ⟨⟨"token", "42"⟩, some ["10.0.0.1"], []⟩
        "10.0.1" = false) :=
  ⟨⟨fun h => absurd ((ipRegex_test_iff _).mpr h) (by decide), by decide,
      (malformed_candidate_denied Engine.roundToNearest "1000.0.0.1").2.2.2.1 (by decide)
        ⟨⟨"token", "42"⟩, some ["10.0.0.1"], []⟩ stored_10_0_0_1⟩,
    ⟨fun h => absurd ((ipRegex_test_iff _).mpr h) (by decide), by decide,
      (malformed_candidate_denied Engine.roundToNearest "10.0.0.0256").2.2.2.1 (by decide)
        ⟨⟨"token", "42"⟩, some ["10.0.0.1"], []⟩ stored_10_0_0_1⟩,
    ⟨fun h => absurd ((ipRegex_test_iff _).mpr h) (by decide), by decide,
      (malformed_candidate_denied Engine.roundToNearest "::ffff:10.0.0.1").2.2.2.2
        (Or.inl ⟨"::ffff:10".data, by decide, Or.inl (by decide)⟩)
        ⟨⟨"token", "42"⟩, some ["10.0.0.1"], []⟩ stored_10_0_0_1⟩,
    ⟨fun h => absurd ((ipRegex_test_iff _).mpr h) (by decide), by decide,
      (malformed_candidate_denied Engine.roundToNearest "10.0.1").2.2.2.2
        (Or.inr ⟨by decide, by
          intro g hg
          have hg1 : g ∈ [['1', '0'], ['0'], ['1']] := hg
          simp only [List.mem_cons, List.mem_singleton, List.not_mem_nil, or_false] at hg1
          rcases hg1 with rfl | rfl | rfl
          · exact ⟨false, 10, by decide, by decide⟩
          · exact ⟨false, 0, by decide, by decide⟩
          · exact ⟨false, 1, by decide, by decide⟩⟩)
        ⟨⟨"token", "42"⟩, some ["10.0.0.1"], []⟩ stored_10_0_0_1⟩⟩

end AdminIp
